import Mathlib

/-!
Verification of the CSV loader/cleaner (`read_csv`) and joiner (`get_arrs`)
from `day3/regression.py`.

Embedding choices:
* A Python dictionary with string keys is an association list with unique keys
  (`Dict`); insertion overwrites an existing binding in place, otherwise it
  appends at the end, and iteration order is the list order.  The claims under
  verification only require the dictionary's iteration order to be internally
  consistent, which any fixed list order provides.
* A CSV row delivered by `csv.DictReader` is a dictionary from column name to
  raw text value (`Row`); a key missing from the row makes lookup fail, which
  corresponds to Python raising `KeyError`.
* Python's builtin `float` is external to the repository, so it is modelled as
  a parameter `pf : String → Option α`: `some x` is a successful parse,
  `none` is the `ValueError` raised on empty or non-numeric text.
* Exceptions (`KeyError` outside the `try` block, `IndexError` from
  `value[0]`) are modelled with `Except PyErr`.  Exceptions raised inside the
  `try` of `read_csv` are caught by the bare `except: pass`, which the
  embedding renders by `parseCols` returning `none` and the row being skipped.
* File input is external: `read_csv` receives the parsed list of rows instead
  of a file name, and `get_arrs` receives the row lists of its two fixed files.
-/

namespace Regression

/-- A Python dict with string keys: association list, unique keys by
construction, iterated in list order. -/
abbrev Dict (α : Type) := List (String × α)

/-- Python `d[k]` / `d.get(k)`: the value bound to `k`, if any. -/
def dictGet {α : Type} (d : Dict α) (k : String) : Option α :=
  match d with
  | [] => none
  | (k', v) :: rest => if k' = k then some v else dictGet rest k

/-- Python `k in d`. -/
def dictMem {α : Type} (d : Dict α) (k : String) : Bool :=
  (dictGet d k).isSome

/-- Python `d[k] = v`: overwrite the existing binding in place, else append. -/
def dictInsert {α : Type} (d : Dict α) (k : String) (v : α) : Dict α :=
  match d with
  | [] => [(k, v)]
  | (k', v') :: rest =>
    if k' = k then (k, v) :: rest else (k', v') :: dictInsert rest k v

/-- The key list of a dict, in iteration order. -/
def dictKeys {α : Type} (d : Dict α) : List String :=
  d.map Prod.fst

/-- One CSV row as produced by `csv.DictReader`: column name → raw text. -/
abbrev Row := Dict String

/-- Python exceptions that can escape the functions under study. -/
inductive PyErr : Type
  | keyError : String → PyErr
  | indexError : PyErr
  deriving DecidableEq

/-- The list comprehension `[float(row[col]) for col in cols]` inside the
`try`: `none` when any
`row[col]` lookup raises `KeyError` or any `float` conversion raises
`ValueError`; `some` of the parsed values (in `cols` order) otherwise. -/
def parseCols {α : Type} (pf : String → Option α) (row : Row) :
    List String → Option (List α)
  | [] => some []
  | col :: rest =>
    (dictGet row col).bind fun raw =>
      (pf raw).bind fun x =>
        (parseCols pf row rest).map (fun xs => x :: xs)

/-- The part of the `read_csv` loop body after the reliability check:
skip the row when `row['County'] == ""`; otherwise build
`rname = "%s__%s" % (row['State'], row['County'])` and bind `rname` to the
parsed column values, skipping the row when parsing fails
(`try ... except: pass`).  Lookups of `'County'` and `'State'` happen outside
the `try`, so their failure is an uncaught `KeyError`. -/
def admitRow {α : Type} (pf : String → Option α) (cols : List String)
    (rows : Dict (List α)) (row : Row) : Except PyErr (Dict (List α)) :=
  match dictGet row "County" with
  | none => .error (.keyError "County")
  | some county =>
    if county = "" then .ok rows
    else
      match dictGet row "State" with
      | none => .error (.keyError "State")
      | some state =>
        match parseCols pf row cols with
        | none => .ok rows
        | some vals => .ok (dictInsert rows (state ++ "__" ++ county) vals)

/-- One iteration of the `read_csv` loop: when `check_reliable` is set,
`row['Unreliable']` is looked up (uncaught `KeyError` when absent) and the row
is skipped when it equals `"x"`; then `admitRow`. -/
def processRow {α : Type} (pf : String → Option α) (cols : List String)
    (check_reliable : Bool) (rows : Dict (List α)) (row : Row) :
    Except PyErr (Dict (List α)) :=
  if check_reliable then
    match dictGet row "Unreliable" with
    | none => .error (.keyError "Unreliable")
    | some u =>
      if u = "x" then .ok rows
      else admitRow pf cols rows row
  else admitRow pf cols rows row

/-- The `for row in reader` loop of `read_csv`, threading the `rows` dict. -/
def readRows {α : Type} (pf : String → Option α) (cols : List String)
    (check_reliable : Bool) :
    Dict (List α) → List Row → Except PyErr (Dict (List α))
  | rows, [] => .ok rows
  | rows, r :: rest =>
    match processRow pf cols check_reliable rows r with
    | .error e => .error e
    | .ok rows' => readRows pf cols check_reliable rows' rest

/-- The loader `read_csv(file_name, cols, check_reliable)` with the file's parsed rows
passed in place of the file name: starts from the empty dict `rows = {}` and
runs the row loop. -/
def read_csv {α : Type} (pf : String → Option α) (source : List Row)
    (cols : List String) (check_reliable : Bool) :
    Except PyErr (Dict (List α)) :=
  readRows pf cols check_reliable [] source

/-- The join loop of `get_arrs`: `for key, value in ypll.iteritems(): if key
in measures: ypll_arr.append(value[0]); measures_arr.append(measures[key])`.
`value[0]` on an empty list raises `IndexError`. -/
def joinRows {α : Type} (measures : Dict (List α)) :
    List α → List (List α) → List (String × List α) →
    Except PyErr (List α × List (List α))
  | ypll_arr, measures_arr, [] => .ok (ypll_arr, measures_arr)
  | ypll_arr, measures_arr, (key, value) :: rest =>
    match dictGet measures key with
    | none => joinRows measures ypll_arr measures_arr rest
    | some mval =>
      match value with
      | [] => .error .indexError
      | v :: _ =>
        joinRows measures (ypll_arr ++ [v]) (measures_arr ++ [mval]) rest

/-- The joiner `get_arrs(dependent_cols, independent_cols)` with the two files' parsed
rows passed in: loads `ypll.csv` with reliability checking and
`additional_measures_cleaned.csv` without, then joins on the region key.  The
final `numpy.array` wrappers are external and carry the same sequences. -/
def get_arrs {α : Type} (pf : String → Option α)
    (ypll_source measures_source : List Row)
    (dependent_cols independent_cols : List String) :
    Except PyErr (List α × List (List α)) :=
  match read_csv pf ypll_source dependent_cols true with
  | .error e => .error e
  | .ok ypll =>
    match read_csv pf measures_source independent_cols false with
    | .error e => .error e
    | .ok measures => joinRows measures [] [] ypll

/-- The sublist of the dependent dict (in its iteration order) whose keys
also occur in `measures`: the joined pairs. -/
def joinedPairs {α : Type} (measures ypll : Dict (List α)) :
    List (String × List α) :=
  ypll.filter (fun kv => dictMem measures kv.1)

/-- Format precondition from the spec's interface section: the row has the
required `"County"` and `"State"` fields, and the reliability column when
`check_reliable` is set.  `csv.DictReader` guarantees this when the header
names these columns. -/
def rowWellFormed (check_reliable : Bool) (row : Row) : Prop :=
  (dictGet row "County").isSome ∧ (dictGet row "State").isSome ∧
    (check_reliable = true → (dictGet row "Unreliable").isSome)

instance (check_reliable : Bool) (row : Row) :
    Decidable (rowWellFormed check_reliable row) :=
  inferInstanceAs (Decidable (_ ∧ _ ∧ _))

/-- A simple decimal-digit parser used to instantiate the external `float`
parameter on concrete inputs in witnesses; the theorems hold for every
parser.  Like Python's `float`, it fails on the empty string and on
non-numeric text. -/
def parseNum (s : String) : Option Nat :=
  match s.data with
  | [] => none
  | cs => go cs 0
where go : List Char → Nat → Option Nat
  | [], acc => some acc
  | c :: cs, acc =>
    if c.isDigit then go cs (acc * 10 + (c.toNat - 48)) else none

/-! ### Dictionary lemmas -/

theorem dictGet_nil {α : Type} (k : String) : dictGet ([] : Dict α) k = none :=
  rfl

theorem dictGet_cons {α : Type} (k₀ : String) (v₀ : α) (rest : Dict α)
    (k : String) :
    dictGet ((k₀, v₀) :: rest) k =
      if k₀ = k then some v₀ else dictGet rest k :=
  rfl

theorem dictInsert_cons {α : Type} (k₀ : String) (v₀ : α) (rest : Dict α)
    (k : String) (v : α) :
    dictInsert ((k₀, v₀) :: rest) k v =
      if k₀ = k then (k, v) :: rest else (k₀, v₀) :: dictInsert rest k v :=
  rfl

theorem dictKeys_cons {α : Type} (k₀ : String) (v₀ : α) (rest : Dict α) :
    dictKeys ((k₀, v₀) :: rest) = k₀ :: dictKeys rest :=
  rfl

theorem dictGet_dictInsert {α : Type} (d : Dict α) (k k' : String) (v : α) :
    dictGet (dictInsert d k v) k' = if k = k' then some v else dictGet d k' := by
  induction d with
  | nil => simp [dictInsert, dictGet_cons, dictGet_nil]
  | cons kv rest ih =>
    obtain ⟨k₀, v₀⟩ := kv
    rw [dictInsert_cons]
    by_cases h : k₀ = k
    · subst h
      rw [if_pos rfl, dictGet_cons, dictGet_cons]
      by_cases h' : k₀ = k'
      · subst h'; simp
      · rw [if_neg h', if_neg h', if_neg h']
    · rw [if_neg h, dictGet_cons, dictGet_cons, ih]
      by_cases h' : k₀ = k'
      · subst h'
        rw [if_pos rfl, if_pos rfl,
          if_neg (fun hh : k = k₀ => h hh.symm)]
      · rw [if_neg h', if_neg h']

theorem mem_dictKeys_iff_isSome {α : Type} (d : Dict α) (k : String) :
    k ∈ dictKeys d ↔ (dictGet d k).isSome := by
  induction d with
  | nil => simp [dictKeys, dictGet_nil]
  | cons kv rest ih =>
    obtain ⟨k₀, v₀⟩ := kv
    rw [dictKeys_cons, List.mem_cons, dictGet_cons]
    by_cases h : k₀ = k
    · subst h; simp
    · rw [if_neg h, ← ih]
      simp only [or_iff_right_iff_imp]
      intro hh
      exact absurd hh.symm h

theorem dictMem_iff_mem_dictKeys {α : Type} (d : Dict α) (k : String) :
    dictMem d k = true ↔ k ∈ dictKeys d := by
  rw [dictMem, mem_dictKeys_iff_isSome]

theorem mem_dictKeys_dictInsert {α : Type} (d : Dict α) (k a : String) (v : α) :
    a ∈ dictKeys (dictInsert d k v) ↔ a = k ∨ a ∈ dictKeys d := by
  rw [mem_dictKeys_iff_isSome, dictGet_dictInsert, mem_dictKeys_iff_isSome]
  by_cases h : k = a
  · subst h; simp
  · rw [if_neg h]
    constructor
    · exact fun hx => Or.inr hx
    · rintro (rfl | hx)
      · exact absurd rfl h
      · exact hx

theorem dictKeys_nodup_dictInsert {α : Type} (d : Dict α) (k : String) (v : α)
    (hd : (dictKeys d).Nodup) : (dictKeys (dictInsert d k v)).Nodup := by
  induction d with
  | nil => simp [dictInsert, dictKeys]
  | cons kv rest ih =>
    obtain ⟨k₀, v₀⟩ := kv
    rw [dictKeys_cons, List.nodup_cons] at hd
    rw [dictInsert_cons]
    by_cases h : k₀ = k
    · subst h
      rw [if_pos rfl, dictKeys_cons, List.nodup_cons]
      exact hd
    · rw [if_neg h, dictKeys_cons, List.nodup_cons]
      refine ⟨?_, ih hd.2⟩
      intro hmem
      rw [mem_dictKeys_dictInsert] at hmem
      rcases hmem with h1 | h1
      · exact h h1
      · exact hd.1 h1

theorem mem_dictInsert {α : Type} (d : Dict α) (k : String) (v : α)
    (kv : String × α) (h : kv ∈ dictInsert d k v) : kv = (k, v) ∨ kv ∈ d := by
  induction d with
  | nil => simpa [dictInsert] using h
  | cons p rest ih =>
    obtain ⟨k₀, v₀⟩ := p
    rw [dictInsert_cons] at h
    by_cases hk : k₀ = k
    · rw [if_pos hk, List.mem_cons] at h
      rcases h with h | h
      · exact Or.inl h
      · exact Or.inr (List.mem_cons_of_mem _ h)
    · rw [if_neg hk, List.mem_cons] at h
      rcases h with h | h
      · exact Or.inr (h ▸ List.mem_cons_self _ _)
      · rcases ih h with h' | h'
        · exact Or.inl h'
        · exact Or.inr (List.mem_cons_of_mem _ h')

theorem dictGet_isSome_of_mem {α : Type} (d : Dict α) (k : String) (v : α)
    (h : (k, v) ∈ d) : (dictGet d k).isSome := by
  induction d with
  | nil => simp at h
  | cons p rest ih =>
    obtain ⟨k₀, v₀⟩ := p
    rw [List.mem_cons] at h
    rw [dictGet_cons]
    by_cases hk : k₀ = k
    · rw [if_pos hk]; rfl
    · rw [if_neg hk]
      rcases h with h | h
      · exact absurd (congrArg Prod.fst h).symm hk
      · exact ih h

theorem dictGet_eq_some_of_mem {α : Type} (d : Dict α) (k : String) (v : α)
    (hd : (dictKeys d).Nodup) (h : (k, v) ∈ d) : dictGet d k = some v := by
  induction d with
  | nil => simp at h
  | cons p rest ih =>
    obtain ⟨k₀, v₀⟩ := p
    rw [dictKeys_cons, List.nodup_cons] at hd
    rw [List.mem_cons] at h
    rw [dictGet_cons]
    rcases h with h | h
    · obtain ⟨h1, h2⟩ := Prod.mk.injEq .. ▸ h.symm
      subst h1; subst h2
      rw [if_pos rfl]
    · have hne : k₀ ≠ k := by
        intro hh
        subst hh
        apply hd.1
        rw [mem_dictKeys_iff_isSome]
        exact dictGet_isSome_of_mem rest k₀ v h
      rw [if_neg hne]
      exact ih hd.2 h

/-! ### Column-parsing lemmas -/

theorem parseCols_nil {α : Type} (pf : String → Option α) (row : Row) :
    parseCols pf row [] = some [] :=
  rfl

theorem parseCols_cons {α : Type} (pf : String → Option α) (row : Row)
    (col : String) (rest : List String) :
    parseCols pf row (col :: rest) =
      (dictGet row col).bind fun raw =>
        (pf raw).bind fun x =>
          (parseCols pf row rest).map (fun xs => x :: xs) :=
  rfl

theorem parseCols_length {α : Type} (pf : String → Option α) (row : Row)
    (cols : List String) (vals : List α)
    (h : parseCols pf row cols = some vals) : vals.length = cols.length := by
  induction cols generalizing vals with
  | nil =>
    rw [parseCols_nil, Option.some.injEq] at h
    subst h; rfl
  | cons col rest ih =>
    rw [parseCols_cons] at h
    rw [Option.bind_eq_some] at h
    obtain ⟨raw, hraw, h⟩ := h
    rw [Option.bind_eq_some] at h
    obtain ⟨x, hx, h⟩ := h
    rw [Option.map_eq_some'] at h
    obtain ⟨xs, hxs, h⟩ := h
    subst h
    simp [ih xs hxs]

theorem parseCols_eq_none_iff {α : Type} (pf : String → Option α) (row : Row)
    (cols : List String) :
    parseCols pf row cols = none ↔
      ∃ col ∈ cols, (dictGet row col).bind pf = none := by
  induction cols with
  | nil => simp [parseCols_nil]
  | cons col rest ih =>
    rw [parseCols_cons]
    cases hg : dictGet row col with
    | none =>
      rw [Option.none_bind]
      constructor
      · intro _
        exact ⟨col, List.mem_cons_self _ _, by rw [hg, Option.none_bind]⟩
      · intro _; rfl
    | some raw =>
      cases hp : pf raw with
      | none =>
        constructor
        · intro _
          exact ⟨col, List.mem_cons_self _ _, by rw [hg]; simpa using hp⟩
        · intro _
          simp [hp]
      | some x =>
        simp only [Option.some_bind, hp]
        constructor
        · intro h
          rw [Option.map_eq_none', ih] at h
          obtain ⟨c, hc, hcc⟩ := h
          exact ⟨c, List.mem_cons_of_mem _ hc, hcc⟩
        · intro h
          obtain ⟨c, hc, hcc⟩ := h
          rw [List.mem_cons] at hc
          rcases hc with hc | hc
          · subst hc
            rw [hg] at hcc
            simp [hp] at hcc
          · rw [Option.map_eq_none', ih]
            exact ⟨c, hc, hcc⟩

/-! ### Row-processing lemmas -/

theorem admitRow_ok_cases {α : Type} (pf : String → Option α)
    (cols : List String) (rows : Dict (List α)) (row : Row)
    (res : Dict (List α)) (h : admitRow pf cols rows row = .ok res) :
    res = rows ∨
      ∃ county state vals, dictGet row "County" = some county ∧ county ≠ "" ∧
        dictGet row "State" = some state ∧ parseCols pf row cols = some vals ∧
        res = dictInsert rows (state ++ "__" ++ county) vals := by
  unfold admitRow at h
  split at h
  · exact absurd h (by simp)
  · rename_i county hc
    split at h
    · rename_i hempty
      simp only [Except.ok.injEq] at h
      exact Or.inl h.symm
    · rename_i hempty
      split at h
      · exact absurd h (by simp)
      · rename_i state hs
        split at h
        · simp only [Except.ok.injEq] at h
          exact Or.inl h.symm
        · rename_i vals hp
          simp only [Except.ok.injEq] at h
          exact Or.inr ⟨county, state, vals, hc, hempty, hs, hp, h.symm⟩

theorem processRow_ok_cases {α : Type} (pf : String → Option α)
    (cols : List String) (cr : Bool) (rows : Dict (List α)) (row : Row)
    (res : Dict (List α)) (h : processRow pf cols cr rows row = .ok res) :
    res = rows ∨ admitRow pf cols rows row = .ok res := by
  unfold processRow at h
  cases cr with
  | false => exact Or.inr (by simpa using h)
  | true =>
    simp only [if_true] at h
    split at h
    · exact absurd h (by simp)
    · split at h
      · simp only [Except.ok.injEq] at h
        exact Or.inl h.symm
      · exact Or.inr h

/-- Invariant of the `rows` dict built by `read_csv`: keys are unique and
every value list has one entry per requested column. -/
def dictInv {α : Type} (n : Nat) (d : Dict (List α)) : Prop :=
  (dictKeys d).Nodup ∧ ∀ kv ∈ d, kv.2.length = n

theorem admitRow_inv {α : Type} {pf : String → Option α} {cols : List String}
    {rows : Dict (List α)} {row : Row} {res : Dict (List α)}
    (h : admitRow pf cols rows row = .ok res)
    (hinv : dictInv cols.length rows) : dictInv cols.length res := by
  rcases admitRow_ok_cases pf cols rows row res h with
    rfl | ⟨county, state, vals, _, _, _, hp, rfl⟩
  · exact hinv
  · constructor
    · exact dictKeys_nodup_dictInsert _ _ _ hinv.1
    · intro kv hkv
      rcases mem_dictInsert _ _ _ _ hkv with rfl | hkv
      · exact parseCols_length _ _ _ _ hp
      · exact hinv.2 kv hkv

theorem processRow_inv {α : Type} {pf : String → Option α} {cols : List String}
    {cr : Bool} {rows : Dict (List α)} {row : Row} {res : Dict (List α)}
    (h : processRow pf cols cr rows row = .ok res)
    (hinv : dictInv cols.length rows) : dictInv cols.length res := by
  rcases processRow_ok_cases pf cols cr rows row res h with rfl | h
  · exact hinv
  · exact admitRow_inv h hinv

theorem readRows_nil {α : Type} (pf : String → Option α) (cols : List String)
    (cr : Bool) (rows : Dict (List α)) :
    readRows pf cols cr rows [] = .ok rows :=
  rfl

theorem readRows_cons_ok {α : Type} {pf : String → Option α}
    {cols : List String} {cr : Bool} {rows rows' : Dict (List α)} {r : Row}
    (rest : List Row) (h : processRow pf cols cr rows r = .ok rows') :
    readRows pf cols cr rows (r :: rest) = readRows pf cols cr rows' rest := by
  rw [readRows, h]

theorem readRows_cons_error {α : Type} {pf : String → Option α}
    {cols : List String} {cr : Bool} {rows : Dict (List α)} {r : Row}
    {e : PyErr} (rest : List Row) (h : processRow pf cols cr rows r = .error e) :
    readRows pf cols cr rows (r :: rest) = .error e := by
  rw [readRows, h]

theorem readRows_inv {α : Type} (pf : String → Option α) (cols : List String)
    (cr : Bool) (src : List Row) :
    ∀ rows res, dictInv cols.length rows →
      readRows pf cols cr rows src = .ok res → dictInv cols.length res := by
  induction src with
  | nil =>
    intro rows res hinv h
    rw [readRows_nil, Except.ok.injEq] at h
    exact h ▸ hinv
  | cons r rest ih =>
    intro rows res hinv h
    cases hp : processRow pf cols cr rows r with
    | error e => rw [readRows_cons_error rest hp] at h; exact absurd h (by simp)
    | ok rows' =>
      rw [readRows_cons_ok rest hp] at h
      exact ih rows' res (processRow_inv hp hinv) h

theorem read_csv_inv {α : Type} (pf : String → Option α) (source : List Row)
    (cols : List String) (cr : Bool) (d : Dict (List α))
    (h : read_csv pf source cols cr = .ok d) : dictInv cols.length d :=
  readRows_inv pf cols cr source [] d ⟨List.nodup_nil, by simp⟩ h

theorem read_csv_values_ne_nil {α : Type} (pf : String → Option α)
    (source : List Row) (cols : List String) (cr : Bool) (d : Dict (List α))
    (hcols : cols ≠ []) (h : read_csv pf source cols cr = .ok d) :
    ∀ kv ∈ d, kv.2 ≠ [] := by
  intro kv hkv hnil
  have hlen := (read_csv_inv pf source cols cr d h).2 kv hkv
  rw [hnil] at hlen
  exact hcols (List.eq_nil_of_length_eq_zero hlen.symm)

/-! ### Row-skipping lemmas -/

theorem admitRow_skip_empty_county {α : Type} (pf : String → Option α)
    (cols : List String) (rows : Dict (List α)) (row : Row)
    (hC : dictGet row "County" = some "") :
    admitRow pf cols rows row = .ok rows := by
  simp [admitRow, hC]

theorem admitRow_skip_parse_fail {α : Type} {pf : String → Option α}
    {cols : List String} {row : Row} {county state : String}
    (rows : Dict (List α))
    (hC : dictGet row "County" = some county) (hne : county ≠ "")
    (hS : dictGet row "State" = some state)
    (hp : parseCols pf row cols = none) :
    admitRow pf cols rows row = .ok rows := by
  simp [admitRow, hC, hne, hS, hp]

theorem admitRow_admit {α : Type} {pf : String → Option α}
    {cols : List String} {row : Row} {county state : String}
    {vals : List α} (rows : Dict (List α))
    (hC : dictGet row "County" = some county) (hne : county ≠ "")
    (hS : dictGet row "State" = some state)
    (hp : parseCols pf row cols = some vals) :
    admitRow pf cols rows row =
      .ok (dictInsert rows (state ++ "__" ++ county) vals) := by
  simp [admitRow, hC, hne, hS, hp]

theorem processRow_skip_unreliable {α : Type} (pf : String → Option α)
    (cols : List String) (rows : Dict (List α)) (row : Row)
    (hU : dictGet row "Unreliable" = some "x") :
    processRow pf cols true rows row = .ok rows := by
  simp [processRow, hU]

theorem processRow_of_admitRow {α : Type} {pf : String → Option α}
    {cols : List String} {cr : Bool} {row : Row} {res : Except PyErr (Dict (List α))}
    (rows : Dict (List α))
    (hU : cr = true → ∃ u, dictGet row "Unreliable" = some u ∧ u ≠ "x")
    (ha : admitRow pf cols rows row = res) :
    processRow pf cols cr rows row = res := by
  cases cr with
  | false => simpa [processRow] using ha
  | true =>
    obtain ⟨u, hu, hx⟩ := hU rfl
    simp [processRow, hu, hx, ha]

theorem processRow_skip {α : Type} {pf : String → Option α}
    {cols : List String} {cr : Bool} {row : Row}
    (rows : Dict (List α))
    (hU : cr = true → ∃ u, dictGet row "Unreliable" = some u)
    (ha : admitRow pf cols rows row = .ok rows) :
    processRow pf cols cr rows row = .ok rows := by
  cases cr with
  | false => simpa [processRow] using ha
  | true =>
    obtain ⟨u, hu⟩ := hU rfl
    by_cases hx : u = "x"
    · subst hx
      exact processRow_skip_unreliable pf cols rows row hu
    · simp [processRow, hu, hx, ha]

theorem readRows_skip_row {α : Type} (pf : String → Option α)
    (cols : List String) (cr : Bool) (row : Row)
    (hrow : ∀ rows : Dict (List α), processRow pf cols cr rows row = .ok rows) :
    ∀ (pre post : List Row) (init : Dict (List α)),
      readRows pf cols cr init (pre ++ row :: post) =
        readRows pf cols cr init (pre ++ post) := by
  intro pre
  induction pre with
  | nil =>
    intro post init
    rw [List.nil_append, List.nil_append, readRows_cons_ok post (hrow init)]
  | cons r pre ih =>
    intro post init
    rw [List.cons_append, List.cons_append]
    cases hp : processRow pf cols cr init r with
    | error e => rw [readRows_cons_error _ hp, readRows_cons_error _ hp]
    | ok rows' => rw [readRows_cons_ok _ hp, readRows_cons_ok _ hp, ih post rows']

theorem readRows_append {α : Type} (pf : String → Option α)
    (cols : List String) (cr : Bool) (s t : List Row) :
    ∀ init : Dict (List α),
      readRows pf cols cr init (s ++ t) =
        match readRows pf cols cr init s with
        | .error e => .error e
        | .ok d => readRows pf cols cr d t := by
  induction s with
  | nil =>
    intro init
    rw [List.nil_append, readRows_nil]
  | cons r s ih =>
    intro init
    rw [List.cons_append]
    cases hp : processRow pf cols cr init r with
    | error e => rw [readRows_cons_error _ hp, readRows_cons_error _ hp]
    | ok rows' => rw [readRows_cons_ok _ hp, readRows_cons_ok _ hp, ih rows']

/-! ### Join lemmas -/

theorem joinRows_nil {α : Type} (measures : Dict (List α))
    (ya : List α) (ma : List (List α)) :
    joinRows measures ya ma [] = .ok (ya, ma) :=
  rfl

theorem joinRows_cons_none {α : Type} {measures : Dict (List α)} {key : String}
    (ya : List α) (ma : List (List α)) (value : List α)
    (rest : List (String × List α)) (h : dictGet measures key = none) :
    joinRows measures ya ma ((key, value) :: rest) =
      joinRows measures ya ma rest := by
  rw [joinRows, h]

theorem joinRows_cons_some {α : Type} {measures : Dict (List α)} {key : String}
    {mval : List α} (ya : List α) (ma : List (List α)) (v : α) (vtl : List α)
    (rest : List (String × List α)) (h : dictGet measures key = some mval) :
    joinRows measures ya ma ((key, v :: vtl) :: rest) =
      joinRows measures (ya ++ [v]) (ma ++ [mval]) rest := by
  rw [joinRows, h]

theorem joinedPairs_nil {α : Type} (measures : Dict (List α)) :
    joinedPairs measures [] = [] :=
  rfl

theorem joinedPairs_cons {α : Type} (measures : Dict (List α))
    (kv : String × List α) (rest : List (String × List α)) :
    joinedPairs measures (kv :: rest) =
      if dictMem measures kv.1 then kv :: joinedPairs measures rest
      else joinedPairs measures rest := by
  rw [joinedPairs, List.filter_cons]
  rfl

theorem joinRows_eq {α : Type} (measures : Dict (List α))
    (l : List (String × List α)) (hne : ∀ kv ∈ l, kv.2 ≠ []) :
    ∀ (ya : List α) (ma : List (List α)),
      joinRows measures ya ma l =
        .ok (ya ++ (joinedPairs measures l).filterMap (fun kv => kv.2.head?),
             ma ++ (joinedPairs measures l).filterMap
               (fun kv => dictGet measures kv.1)) := by
  induction l with
  | nil => intro ya ma; simp [joinRows_nil, joinedPairs_nil]
  | cons kv rest ih =>
    intro ya ma
    obtain ⟨key, value⟩ := kv
    have hne' : ∀ kv ∈ rest, kv.2 ≠ [] :=
      fun kv h => hne kv (List.mem_cons_of_mem _ h)
    cases hg : dictGet measures key with
    | none =>
      rw [joinRows_cons_none ya ma value rest hg, ih hne' ya ma,
        joinedPairs_cons]
      have : dictMem measures (key, value).1 = false := by
        simp [dictMem, hg]
      rw [this, if_neg (by simp)]
    | some mval =>
      have hv : value ≠ [] := hne (key, value) (List.mem_cons_self _ _)
      cases value with
      | nil => exact absurd rfl hv
      | cons v vtl =>
        rw [joinRows_cons_some ya ma v vtl rest hg, ih hne' (ya ++ [v]) (ma ++ [mval]),
          joinedPairs_cons]
        have : dictMem measures (key, v :: vtl).1 = true := by
          simp [dictMem, hg]
        rw [this, if_pos (by simp)]
        simp [List.filterMap_cons, hg]

theorem filterMap_length_of_isSome {β γ : Type} (l : List β) (f : β → Option γ)
    (h : ∀ x ∈ l, (f x).isSome) : (l.filterMap f).length = l.length := by
  induction l with
  | nil => rfl
  | cons a l ih =>
    have ha := h a (List.mem_cons_self _ _)
    obtain ⟨b, hb⟩ := Option.isSome_iff_exists.mp ha
    rw [List.filterMap_cons, hb, List.length_cons, List.length_cons,
      ih (fun x hx => h x (List.mem_cons_of_mem _ hx))]

theorem filterMap_getElem_of_isSome {β γ : Type} (l : List β) (f : β → Option γ)
    (h : ∀ x ∈ l, (f x).isSome) (i : Nat) :
    (l.filterMap f)[i]? = (l[i]?).bind f := by
  induction l generalizing i with
  | nil => simp
  | cons a l ih =>
    have ha := h a (List.mem_cons_self _ _)
    obtain ⟨b, hb⟩ := Option.isSome_iff_exists.mp ha
    rw [List.filterMap_cons, hb]
    cases i with
    | zero => simp [hb]
    | succ i =>
      rw [List.getElem?_cons_succ, List.getElem?_cons_succ,
        ih (fun x hx => h x (List.mem_cons_of_mem _ hx))]

theorem joinedPairs_map_fst {α : Type} (measures d : Dict (List α)) :
    (joinedPairs measures d).map Prod.fst =
      (dictKeys d).filter (fun k => dictMem measures k) := by
  induction d with
  | nil => rfl
  | cons kv rest ih =>
    obtain ⟨k, v⟩ := kv
    rw [joinedPairs_cons, dictKeys_cons, List.filter_cons]
    by_cases h : dictMem measures k
    · rw [if_pos (by simpa using h), if_pos (by simpa using h), List.map_cons, ih]
    · rw [if_neg (by simpa using h), if_neg (by simpa using h), ih]

theorem joinedPairs_length_eq_card {α : Type} (measures d : Dict (List α))
    (hd : (dictKeys d).Nodup) :
    (joinedPairs measures d).length =
      ((dictKeys d).toFinset ∩ (dictKeys measures).toFinset).card := by
  have h1 : (joinedPairs measures d).length =
      ((dictKeys d).filter (fun k => dictMem measures k)).length := by
    rw [← joinedPairs_map_fst, List.length_map]
  rw [h1]
  have h2 : ((dictKeys d).filter (fun k => dictMem measures k)).toFinset.card =
      ((dictKeys d).filter (fun k => dictMem measures k)).length :=
    List.toFinset_card_of_nodup (hd.filter _)
  rw [← h2, List.toFinset_filter]
  congr 1
  ext k
  simp only [Finset.mem_filter, List.mem_toFinset, Finset.mem_inter,
    dictMem_iff_mem_dictKeys, decide_eq_true_eq]

theorem get_arrs_eq {α : Type} (pf : String → Option α)
    (s1 s2 : List Row) (cols1 cols2 : List String) (d1 d2 : Dict (List α))
    (h1 : read_csv pf s1 cols1 true = .ok d1)
    (h2 : read_csv pf s2 cols2 false = .ok d2)
    (hcols : cols1 ≠ []) :
    get_arrs pf s1 s2 cols1 cols2 =
      .ok ((joinedPairs d2 d1).filterMap (fun kv => kv.2.head?),
           (joinedPairs d2 d1).filterMap (fun kv => dictGet d2 kv.1)) := by
  have hne := read_csv_values_ne_nil pf s1 cols1 true d1 hcols h1
  simp only [get_arrs, h1, h2]
  rw [joinRows_eq d2 d1 hne [] []]
  simp

theorem joinedPairs_head_isSome {α : Type} (d1 d2 : Dict (List α))
    (hne : ∀ kv ∈ d1, kv.2 ≠ []) :
    ∀ kv ∈ joinedPairs d2 d1, (kv.2.head?).isSome := by
  intro kv hkv
  have hkv1 : kv ∈ d1 := List.mem_of_mem_filter hkv
  have := hne kv hkv1
  cases h : kv.2 with
  | nil => exact absurd h this
  | cons v vtl => simp [h]

theorem joinedPairs_lookup_isSome {α : Type} (d1 d2 : Dict (List α)) :
    ∀ kv ∈ joinedPairs d2 d1, (dictGet d2 kv.1).isSome := by
  intro kv hkv
  have := List.of_mem_filter hkv
  simpa [dictMem] using this

theorem processRow_skip_of_parse_fail {α : Type} {pf : String → Option α}
    {cols : List String} {cr : Bool} {row : Row}
    (hwf : rowWellFormed cr row) (hp : parseCols pf row cols = none) :
    ∀ rows : Dict (List α), processRow pf cols cr rows row = .ok rows := by
  intro rows
  obtain ⟨hC, hS, hU⟩ := hwf
  obtain ⟨county, hc⟩ := Option.isSome_iff_exists.mp hC
  obtain ⟨state, hs⟩ := Option.isSome_iff_exists.mp hS
  have ha : admitRow pf cols rows row = .ok rows := by
    by_cases hemp : county = ""
    · subst hemp
      exact admitRow_skip_empty_county pf cols rows row hc
    · exact admitRow_skip_parse_fail rows hc hemp hs hp
  exact processRow_skip rows (fun h => Option.isSome_iff_exists.mp (hU h)) ha

theorem processRow_ok_of_wellFormed {α : Type} (pf : String → Option α)
    (cols : List String) (cr : Bool) (rows : Dict (List α)) (row : Row)
    (hwf : rowWellFormed cr row) :
    ∃ res, processRow pf cols cr rows row = .ok res := by
  obtain ⟨hC, hS, hU⟩ := hwf
  obtain ⟨county, hc⟩ := Option.isSome_iff_exists.mp hC
  obtain ⟨state, hs⟩ := Option.isSome_iff_exists.mp hS
  have hadmit : ∃ res, admitRow pf cols rows row = .ok res := by
    by_cases hemp : county = ""
    · subst hemp
      exact ⟨rows, admitRow_skip_empty_county pf cols rows row hc⟩
    · cases hp : parseCols pf row cols with
      | none => exact ⟨rows, admitRow_skip_parse_fail rows hc hemp hs hp⟩
      | some vals => exact ⟨_, admitRow_admit rows hc hemp hs hp⟩
  cases cr with
  | false =>
    obtain ⟨res, ha⟩ := hadmit
    exact ⟨res, by simpa [processRow] using ha⟩
  | true =>
    obtain ⟨u, hu⟩ := Option.isSome_iff_exists.mp (hU rfl)
    by_cases hx : u = "x"
    · subst hx
      exact ⟨rows, processRow_skip_unreliable pf cols rows row hu⟩
    · obtain ⟨res, ha⟩ := hadmit
      exact ⟨res, by simp [processRow, hu, hx, ha]⟩

theorem readRows_ok_of_wellFormed {α : Type} (pf : String → Option α)
    (cols : List String) (cr : Bool) (source : List Row)
    (hwf : ∀ row ∈ source, rowWellFormed cr row) :
    ∀ init : Dict (List α), ∃ d, readRows pf cols cr init source = .ok d := by
  induction source with
  | nil => intro init; exact ⟨init, readRows_nil pf cols cr init⟩
  | cons r rest ih =>
    intro init
    obtain ⟨rows', hp⟩ := processRow_ok_of_wellFormed pf cols cr init r
      (hwf r (List.mem_cons_self _ _))
    obtain ⟨d, hd⟩ := ih (fun row h => hwf row (List.mem_cons_of_mem _ h)) rows'
    exact ⟨d, by rw [readRows_cons_ok rest hp, hd]⟩

theorem readRows_all_skip {α : Type} (pf : String → Option α)
    (cols : List String) (cr : Bool) (source : List Row)
    (h : ∀ row ∈ source, ∀ rows : Dict (List α),
      processRow pf cols cr rows row = .ok rows) :
    ∀ init : Dict (List α), readRows pf cols cr init source = .ok init := by
  induction source with
  | nil => intro init; exact readRows_nil pf cols cr init
  | cons r rest ih =>
    intro init
    rw [readRows_cons_ok rest (h r (List.mem_cons_self _ _) init)]
    exact ih (fun row hr => h row (List.mem_cons_of_mem _ hr)) init

theorem joinRows_disjoint {α : Type} (measures : Dict (List α))
    (l : List (String × List α))
    (h : ∀ kv ∈ l, dictGet measures kv.1 = none) :
    ∀ ya ma, joinRows measures ya ma l = .ok (ya, ma) := by
  induction l with
  | nil => intro ya ma; exact joinRows_nil measures ya ma
  | cons kv rest ih =>
    intro ya ma
    obtain ⟨key, value⟩ := kv
    rw [joinRows_cons_none ya ma value rest (h (key, value) (List.mem_cons_self _ _))]
    exact ih (fun kv hkv => h kv (List.mem_cons_of_mem _ hkv)) ya ma

/-! ### Claim theorems -/

/-- C1: for every pair of input datasets (and a non-empty dependent column
list, as in the script), the two sequences returned by `get_arrs` have equal
length, and that length is the cardinality of the intersection of the
dependent cleaned dataset's key set and the independent cleaned dataset's key
set. -/
theorem get_arrs_length_eq_card_inter {α : Type} (pf : String → Option α)
    (s1 s2 : List Row) (cols1 cols2 : List String) (d1 d2 : Dict (List α))
    (h1 : read_csv pf s1 cols1 true = .ok d1)
    (h2 : read_csv pf s2 cols2 false = .ok d2)
    (hcols : cols1 ≠ []) :
    ∃ dep indep,
      get_arrs pf s1 s2 cols1 cols2 = .ok (dep, indep) ∧
      dep.length = indep.length ∧
      dep.length = ((dictKeys d1).toFinset ∩ (dictKeys d2).toFinset).card := by
  have hne := read_csv_values_ne_nil pf s1 cols1 true d1 hcols h1
  have hnodup := (read_csv_inv pf s1 cols1 true d1 h1).1
  refine ⟨_, _, get_arrs_eq pf s1 s2 cols1 cols2 d1 d2 h1 h2 hcols, ?_, ?_⟩
  · rw [filterMap_length_of_isSome _ _ (joinedPairs_head_isSome d1 d2 hne),
      filterMap_length_of_isSome _ _ (joinedPairs_lookup_isSome d1 d2)]
  · rw [filterMap_length_of_isSome _ _ (joinedPairs_head_isSome d1 d2 hne),
      joinedPairs_length_eq_card d2 d1 hnodup]

/-- C1 witness: a concrete evaluation of the theorem on one-row sources that
share the region key `WI__Dane`. -/
theorem get_arrs_length_eq_card_inter_witness :
    ∃ dep indep,
      get_arrs parseNum
          [[("State", "WI"), ("County", "Dane"), ("Unreliable", ""), ("Y", "7000")]]
          [[("State", "WI"), ("County", "Dane"), ("P", "500000")]]
          ["Y"] ["P"] = .ok (dep, indep) ∧
      dep.length = indep.length ∧
      dep.length =
        ((dictKeys ([("WI__Dane", [7000])] : Dict (List Nat))).toFinset ∩
          (dictKeys ([("WI__Dane", [500000])] : Dict (List Nat))).toFinset).card :=
  get_arrs_length_eq_card_inter parseNum
    [[("State", "WI"), ("County", "Dane"), ("Unreliable", ""), ("Y", "7000")]]
    [[("State", "WI"), ("County", "Dane"), ("P", "500000")]]
    ["Y"] ["P"] [("WI__Dane", [7000])] [("WI__Dane", [500000])]
    (by rfl) (by rfl) (by simp)

/-- C2: for every index `i` into the two output sequences of `get_arrs`, the
dependent scalar at `i` and the independent vector at `i` come from the same
region key: the `i`-th pair of `joinedPairs d2 d1` — the keys of the dependent
dataset visited in its native iteration order, restricted to those present in
the independent dataset — supplies both `dep[i]` (the head of the dependent
value bound to that key) and `indep[i]` (the independent vector bound to that
key). -/
theorem get_arrs_index_correspondence {α : Type} (pf : String → Option α)
    (s1 s2 : List Row) (cols1 cols2 : List String) (d1 d2 : Dict (List α))
    (h1 : read_csv pf s1 cols1 true = .ok d1)
    (h2 : read_csv pf s2 cols2 false = .ok d2)
    (hcols : cols1 ≠ []) :
    ∃ dep indep,
      get_arrs pf s1 s2 cols1 cols2 = .ok (dep, indep) ∧
      ∀ i, i < dep.length →
        ∃ k v, (joinedPairs d2 d1)[i]? = some (k, v) ∧
          dictGet d1 k = some v ∧
          dep[i]? = v.head? ∧
          indep[i]? = dictGet d2 k := by
  have hne := read_csv_values_ne_nil pf s1 cols1 true d1 hcols h1
  have hnodup := (read_csv_inv pf s1 cols1 true d1 h1).1
  refine ⟨_, _, get_arrs_eq pf s1 s2 cols1 cols2 d1 d2 h1 h2 hcols, ?_⟩
  intro i hi
  rw [filterMap_length_of_isSome _ _ (joinedPairs_head_isSome d1 d2 hne)] at hi
  have hkv : (joinedPairs d2 d1)[i]? = some ((joinedPairs d2 d1)[i]) :=
    List.getElem?_eq_getElem hi
  have hmem : (joinedPairs d2 d1)[i] ∈ joinedPairs d2 d1 :=
    List.getElem_mem hi
  refine ⟨((joinedPairs d2 d1)[i]).1, ((joinedPairs d2 d1)[i]).2, ?_, ?_, ?_, ?_⟩
  · rw [hkv]
  · exact dictGet_eq_some_of_mem d1 _ _ hnodup
      (by simpa using List.mem_of_mem_filter hmem)
  · rw [filterMap_getElem_of_isSome _ _ (joinedPairs_head_isSome d1 d2 hne), hkv]
    rfl
  · rw [filterMap_getElem_of_isSome _ _ (joinedPairs_lookup_isSome d1 d2), hkv]
    rfl

/-- C2 witness: concrete two-row dependent source joined against a one-row
independent source. -/
theorem get_arrs_index_correspondence_witness :
    ∃ dep indep,
      get_arrs parseNum
          [[("State", "WI"), ("County", "Dane"), ("Unreliable", ""), ("Y", "7000")],
           [("State", "OH"), ("County", "Knox"), ("Unreliable", ""), ("Y", "8000")]]
          [[("State", "OH"), ("County", "Knox"), ("P", "9")]]
          ["Y"] ["P"] = .ok (dep, indep) ∧
      ∀ i, i < dep.length →
        ∃ k v,
          (joinedPairs ([("OH__Knox", [9])] : Dict (List Nat))
            [("WI__Dane", [7000]), ("OH__Knox", [8000])])[i]? = some (k, v) ∧
          dictGet [("WI__Dane", [7000]), ("OH__Knox", [8000])] k = some v ∧
          dep[i]? = v.head? ∧
          indep[i]? = dictGet [("OH__Knox", [9])] k :=
  get_arrs_index_correspondence parseNum
    [[("State", "WI"), ("County", "Dane"), ("Unreliable", ""), ("Y", "7000")],
     [("State", "OH"), ("County", "Knox"), ("Unreliable", ""), ("Y", "8000")]]
    [[("State", "OH"), ("County", "Knox"), ("P", "9")]]
    ["Y"] ["P"] [("WI__Dane", [7000]), ("OH__Knox", [8000])] [("OH__Knox", [9])]
    (by rfl) (by rfl) (by simp)

/-- C3: if any requested column's value of a (well-formed) row fails to parse
— including a missing value — `read_csv` excludes the entire row from its
output: the result equals the result on the source without that row, so no
partial row with only the parseable columns is ever included, whatever the
other columns hold. -/
theorem read_csv_excludes_unparsable_row {α : Type} (pf : String → Option α)
    (cols : List String) (cr : Bool) (row : Row) (pre post : List Row)
    (hfail : ∃ col ∈ cols, (dictGet row col).bind pf = none)
    (hwf : rowWellFormed cr row) :
    read_csv pf (pre ++ row :: post) cols cr =
      read_csv pf (pre ++ post) cols cr := by
  have hp : parseCols pf row cols = none :=
    (parseCols_eq_none_iff pf row cols).mpr hfail
  exact readRows_skip_row pf cols cr row
    (processRow_skip_of_parse_fail hwf hp) pre post []

/-- C3 witness: a row whose `"Y"` value is the empty string is dropped whole,
even though its `"Z"` value parses. -/
theorem read_csv_excludes_unparsable_row_witness :
    read_csv parseNum
        [[("State", "WI"), ("County", "Dane"), ("Unreliable", ""),
          ("Y", ""), ("Z", "5")]]
        ["Y", "Z"] true =
      read_csv parseNum [] ["Y", "Z"] true :=
  read_csv_excludes_unparsable_row parseNum ["Y", "Z"] true
    [("State", "WI"), ("County", "Dane"), ("Unreliable", ""),
      ("Y", ""), ("Z", "5")]
    [] []
    ⟨"Y", by simp, by rfl⟩
    ⟨by rfl, by rfl, fun _ => by rfl⟩

/-- C4: a row whose reliability field equals the unreliable marker `"x"` is
excluded when `check_reliability` is true — it contributes nothing to the
output on any source — and the same row is retained when `check_reliability`
is false, provided its county field is non-empty and every requested column
parses. -/
theorem read_csv_reliability_filter {α : Type} (pf : String → Option α)
    (cols : List String) (row : Row)
    (hU : dictGet row "Unreliable" = some "x") :
    (∀ pre post : List Row,
      read_csv pf (pre ++ row :: post) cols true =
        read_csv pf (pre ++ post) cols true) ∧
    (∀ (county state : String) (vals : List α),
      dictGet row "County" = some county → county ≠ "" →
      dictGet row "State" = some state →
      parseCols pf row cols = some vals →
      read_csv pf [row] cols false = .ok [(state ++ "__" ++ county, vals)]) := by
  constructor
  · intro pre post
    exact readRows_skip_row pf cols true row
      (fun rows => processRow_skip_unreliable pf cols rows row hU) pre post []
  · intro county state vals hc hemp hs hp
    have ha := admitRow_admit ([] : Dict (List α)) hc hemp hs hp
    have hp' := @processRow_of_admitRow α pf cols false row _
      ([] : Dict (List α)) (fun h => nomatch h) ha
    rw [read_csv, readRows_cons_ok [] hp', readRows_nil]
    rfl

/-- C4 witness: the same unreliable row is dropped with the flag set and kept
with the flag clear. -/
theorem read_csv_reliability_filter_witness :
    read_csv parseNum
        [[("State", "WI"), ("County", "Dane"), ("Unreliable", "x"), ("Y", "7")]]
        ["Y"] true = read_csv parseNum [] ["Y"] true ∧
    read_csv parseNum
        [[("State", "WI"), ("County", "Dane"), ("Unreliable", "x"), ("Y", "7")]]
        ["Y"] false = .ok [("WI__Dane", [7])] :=
  ⟨(read_csv_reliability_filter parseNum ["Y"]
      [("State", "WI"), ("County", "Dane"), ("Unreliable", "x"), ("Y", "7")]
      (by rfl)).1 [] [],
   (read_csv_reliability_filter parseNum ["Y"]
      [("State", "WI"), ("County", "Dane"), ("Unreliable", "x"), ("Y", "7")]
      (by rfl)).2 "Dane" "WI" [7] (by rfl) (by decide) (by rfl) (by rfl)⟩

/-- C5: a row whose `"County"` field is the empty string contributes nothing
to the output of `read_csv` on any source, for any requested columns and
either value of `check_reliability` (given the reliability field the flag
reads is present); in particular a single-row source yields the empty
mapping, so the row's key is absent. -/
theorem read_csv_excludes_empty_county {α : Type} (pf : String → Option α)
    (cols : List String) (cr : Bool) (row : Row)
    (hC : dictGet row "County" = some "")
    (hU : cr = true → (dictGet row "Unreliable").isSome) :
    (∀ pre post : List Row,
      read_csv pf (pre ++ row :: post) cols cr =
        read_csv pf (pre ++ post) cols cr) ∧
    read_csv pf [row] cols cr = .ok [] := by
  have hskip : ∀ rows : Dict (List α), processRow pf cols cr rows row = .ok rows :=
    fun rows => processRow_skip rows (fun h => Option.isSome_iff_exists.mp (hU h))
      (admitRow_skip_empty_county pf cols rows row hC)
  constructor
  · intro pre post
    exact readRows_skip_row pf cols cr row hskip pre post []
  · rw [read_csv, readRows_cons_ok [] (hskip []), readRows_nil]

/-- C5 witness: a state-summary row (empty county) is removed from a source
and produces an empty mapping alone. -/
theorem read_csv_excludes_empty_county_witness :
    (read_csv parseNum
        [[("State", "WI"), ("County", ""), ("Unreliable", ""), ("Y", "7")]]
        ["Y"] true = read_csv parseNum [] ["Y"] true) ∧
    read_csv parseNum
        [[("State", "WI"), ("County", ""), ("Unreliable", ""), ("Y", "7")]]
        ["Y"] true = .ok [] :=
  ⟨(read_csv_excludes_empty_county parseNum ["Y"] true
      [("State", "WI"), ("County", ""), ("Unreliable", ""), ("Y", "7")]
      (by rfl) (fun _ => by rfl)).1 [] [],
   (read_csv_excludes_empty_county parseNum ["Y"] true
      [("State", "WI"), ("County", ""), ("Unreliable", ""), ("Y", "7")]
      (by rfl) (fun _ => by rfl)).2⟩

/-- C6: an admitted row is stored under the key built by concatenating its
`"State"` and `"County"` fields with the fixed separator `"__"`, and when the
row arrives after a source that already bound that key, the mapping ends up
holding the later row's column values (last-write-wins in source iteration
order). -/
theorem read_csv_region_key_last_write_wins {α : Type} (pf : String → Option α)
    (cols : List String) (cr : Bool) (src : List Row) (row : Row)
    (county state : String) (vals : List α) (d : Dict (List α))
    (hU : cr = true → ∃ u, dictGet row "Unreliable" = some u ∧ u ≠ "x")
    (hC : dictGet row "County" = some county) (hcne : county ≠ "")
    (hS : dictGet row "State" = some state)
    (hp : parseCols pf row cols = some vals)
    (hd : read_csv pf src cols cr = .ok d) :
    read_csv pf (src ++ [row]) cols cr =
      .ok (dictInsert d (state ++ "__" ++ county) vals) ∧
    dictGet (dictInsert d (state ++ "__" ++ county) vals)
      (state ++ "__" ++ county) = some vals := by
  constructor
  · have ha := admitRow_admit d hC hcne hS hp
    have hp' := processRow_of_admitRow d hU ha
    rw [read_csv, readRows_append pf cols cr src [row] [], ← read_csv, hd]
    show readRows pf cols cr d [row] = _
    rw [readRows_cons_ok [] hp', readRows_nil]
  · rw [dictGet_dictInsert, if_pos rfl]

/-- C6 witness: two rows with the region key `WI__Dane`; the second row's
value `[2]` wins. -/
theorem read_csv_region_key_last_write_wins_witness :
    read_csv parseNum
        [[("State", "WI"), ("County", "Dane"), ("Unreliable", ""), ("Y", "1")],
         [("State", "WI"), ("County", "Dane"), ("Unreliable", ""), ("Y", "2")]]
        ["Y"] true = .ok [("WI__Dane", [2])] ∧
    dictGet [("WI__Dane", [(2 : Nat)])] "WI__Dane" = some [2] :=
  read_csv_region_key_last_write_wins parseNum ["Y"] true
    [[("State", "WI"), ("County", "Dane"), ("Unreliable", ""), ("Y", "1")]]
    [("State", "WI"), ("County", "Dane"), ("Unreliable", ""), ("Y", "2")]
    "Dane" "WI" [2] [("WI__Dane", [1])]
    (fun _ => ⟨"", by rfl, by decide⟩) (by rfl) (by decide) (by rfl) (by rfl)
    (by rfl)

/-- C7: for a readable source all of whose rows carry the fields the loader
reads (the spec's input-format requirement), `read_csv` surfaces no error:
every malformed row — unreliable, empty county, or failing numeric parse — is
silently skipped and a mapping is returned.  Failure to open the file is an
external I/O event preceding the loop, outside this embedding; the loop body
itself raises nothing on such sources. -/
theorem read_csv_no_error_for_readable_source {α : Type} (pf : String → Option α)
    (source : List Row) (cols : List String) (cr : Bool)
    (hwf : ∀ row ∈ source, rowWellFormed cr row) :
    ∃ d, read_csv pf source cols cr = .ok d :=
  readRows_ok_of_wellFormed pf cols cr source hwf []

/-- C7 witness: a source holding an unreliable row, a state-summary row, a
row with an unparsable value and a good row loads without error. -/
theorem read_csv_no_error_for_readable_source_witness :
    ∃ d, read_csv parseNum
        [[("State", "WI"), ("County", "Dane"), ("Unreliable", "x"), ("Y", "1")],
         [("State", "WI"), ("County", ""), ("Unreliable", ""), ("Y", "2")],
         [("State", "WI"), ("County", "Rock"), ("Unreliable", ""), ("Y", "")],
         [("State", "WI"), ("County", "Vilas"), ("Unreliable", ""), ("Y", "4")]]
        ["Y"] true = .ok d :=
  read_csv_no_error_for_readable_source parseNum
    [[("State", "WI"), ("County", "Dane"), ("Unreliable", "x"), ("Y", "1")],
     [("State", "WI"), ("County", ""), ("Unreliable", ""), ("Y", "2")],
     [("State", "WI"), ("County", "Rock"), ("Unreliable", ""), ("Y", "")],
     [("State", "WI"), ("County", "Vilas"), ("Unreliable", ""), ("Y", "4")]]
    ["Y"] true (by decide)

/-- C8: when the key sets of the two cleaned datasets do not intersect,
`get_arrs` returns two empty sequences and raises no error; moreover every
joined pair's key belongs to both key sets, so a key present in only one
cleaned dataset never contributes an element to either output sequence. -/
theorem get_arrs_empty_intersection {α : Type} (pf : String → Option α)
    (s1 s2 : List Row) (cols1 cols2 : List String) (d1 d2 : Dict (List α))
    (h1 : read_csv pf s1 cols1 true = .ok d1)
    (h2 : read_csv pf s2 cols2 false = .ok d2)
    (hdisj : ∀ k ∈ dictKeys d1, k ∉ dictKeys d2) :
    get_arrs pf s1 s2 cols1 cols2 = .ok ([], []) ∧
    ∀ kv ∈ joinedPairs d2 d1, kv.1 ∈ dictKeys d1 ∧ kv.1 ∈ dictKeys d2 := by
  constructor
  · simp only [get_arrs, h1, h2]
    apply joinRows_disjoint
    intro kv hkv
    have hk1 : kv.1 ∈ dictKeys d1 := List.mem_map_of_mem Prod.fst hkv
    have hk2 := hdisj kv.1 hk1
    rw [mem_dictKeys_iff_isSome] at hk2
    exact Option.not_isSome_iff_eq_none.mp hk2
  · intro kv hkv
    refine ⟨List.mem_map_of_mem Prod.fst (List.mem_of_mem_filter hkv), ?_⟩
    have hmem := List.of_mem_filter hkv
    rw [← dictMem_iff_mem_dictKeys]
    simpa using hmem

/-- C8 witness: one-row sources with distinct region keys join to two empty
sequences. -/
theorem get_arrs_empty_intersection_witness :
    get_arrs parseNum
        [[("State", "WI"), ("County", "Dane"), ("Unreliable", ""), ("Y", "1")]]
        [[("State", "OH"), ("County", "Knox"), ("P", "2")]]
        ["Y"] ["P"] = .ok ([], []) ∧
    ∀ kv ∈ joinedPairs ([("OH__Knox", [2])] : Dict (List Nat)) [("WI__Dane", [1])],
      kv.1 ∈ dictKeys [("WI__Dane", [(1 : Nat)])] ∧
        kv.1 ∈ dictKeys [("OH__Knox", [(2 : Nat)])] :=
  get_arrs_empty_intersection parseNum
    [[("State", "WI"), ("County", "Dane"), ("Unreliable", ""), ("Y", "1")]]
    [[("State", "OH"), ("County", "Knox"), ("P", "2")]]
    ["Y"] ["P"] [("WI__Dane", [1])] [("OH__Knox", [2])]
    (by rfl) (by rfl) (by decide)

/-- C9: the loader is a deterministic function of its source, requested
columns and reliability flag: two calls on equal inputs return equal output
mappings.  The embedding of `read_csv` is a pure function precisely because
the source function reads only its parameters and fresh locals — no state is
shared across calls. -/
theorem read_csv_deterministic {α : Type} (pf : String → Option α)
    (s1 s2 : List Row) (cols1 cols2 : List String) (cr1 cr2 : Bool)
    (hs : s1 = s2) (hc : cols1 = cols2) (hr : cr1 = cr2) :
    read_csv pf s1 cols1 cr1 = read_csv pf s2 cols2 cr2 := by
  rw [hs, hc, hr]

/-- C9 witness: two identical calls on a concrete source agree. -/
theorem read_csv_deterministic_witness :
    read_csv parseNum
        [[("State", "WI"), ("County", "Dane"), ("Unreliable", ""), ("Y", "7")]]
        ["Y"] true =
      read_csv parseNum
        [[("State", "WI"), ("County", "Dane"), ("Unreliable", ""), ("Y", "7")]]
        ["Y"] true :=
  read_csv_deterministic parseNum
    [[("State", "WI"), ("County", "Dane"), ("Unreliable", ""), ("Y", "7")]]
    [[("State", "WI"), ("County", "Dane"), ("Unreliable", ""), ("Y", "7")]]
    ["Y"] ["Y"] true true rfl rfl rfl

/-- C10: when a requested column is absent from every row's fields (e.g. a
name misspelled or missing from the header), `read_csv` raises no error: the
failed lookup is caught by the same blanket handler as numeric parse
failures, every row is silently dropped, and the loader returns the empty
mapping instead of reporting the bad column name. -/
theorem read_csv_missing_column_yields_empty {α : Type} (pf : String → Option α)
    (source : List Row) (cols : List String) (col : String) (cr : Bool)
    (hcol : col ∈ cols)
    (habsent : ∀ row ∈ source, dictGet row col = none)
    (hwf : ∀ row ∈ source, rowWellFormed cr row) :
    read_csv pf source cols cr = .ok [] := by
  have h : ∀ row ∈ source, ∀ rows : Dict (List α),
      processRow pf cols cr rows row = .ok rows := by
    intro row hr
    apply processRow_skip_of_parse_fail (hwf row hr)
    rw [parseCols_eq_none_iff]
    exact ⟨col, hcol, by rw [habsent row hr]; rfl⟩
  exact readRows_all_skip pf cols cr source h []

/-- C10 witness: requesting the absent column `"Z"` yields the empty mapping
with no error. -/
theorem read_csv_missing_column_yields_empty_witness :
    read_csv parseNum
        [[("State", "WI"), ("County", "Dane"), ("Unreliable", ""), ("Y", "7")]]
        ["Z"] true = .ok [] :=
  read_csv_missing_column_yields_empty parseNum
    [[("State", "WI"), ("County", "Dane"), ("Unreliable", ""), ("Y", "7")]]
    ["Z"] "Z" true (by decide) (by decide) (by decide)

end Regression
